import Mathlib

/-!
Verification of the fast-csv-parser specification.

The streaming adapter (`CsvParserStream` and the `csv(options)` factory) is
embedded from the JavaScript source.  The incremental parser core
(encoding front-end, field scanner, row assembler, driver) is a native
module whose source is not part of the repository; it is modelled here
from the specification, §3, §4 and §6: a byte-at-a-time step function over
an explicit parser state, so that arbitrary chunking is expressible as an
arbitrary partition of the input byte list.

Bytes are `Nat`; a field value is a `List Nat` of its bytes; a record is
an ordered association list from header-name bytes to value bytes.
-/

namespace FastCsv

/-- Error kinds of the core, from spec §7. -/
inductive Err where
  | rowLengthMismatch
  | rowTooLarge
  | invalidEncoding
  | invalidData
  | unterminatedQuote
  deriving DecidableEq, Repr

/-- Error messages, from spec §7. -/
def errMessage : Err → String
  | .rowLengthMismatch => "Row length does not match headers"
  | .rowTooLarge => "Row exceeds the maximum size"
  | .invalidEncoding => "InvalidEncoding"
  | .invalidData => "Invalid CSV data: nul byte"
  | .unterminatedQuote => "UnterminatedQuote"

/-- The `headers` configuration: absent (infer from the first non-skipped
row), a literal list (do not consume a row as headers), or disabled
(synthesise names). Spec §3. -/
inductive HeadersOpt where
  | infer
  | given (hs : List (List Nat))
  | disabled
  deriving DecidableEq, Repr

/-- Core configuration, from spec §3, with the defaults of the adapter
source (separator `,` = 44, quote and escape `"` = 34, newline `\n` = 10,
`maxRowBytes` = `Number.MAX_SAFE_INTEGER`). -/
structure Cfg where
  separator : Nat := 44
  quote : Nat := 34
  escape : Nat := 34
  newline : Nat := 10
  headersOpt : HeadersOpt := .infer
  skipLines : Nat := 0
  comment : Option Nat := none
  maxRowBytes : Nat := 9007199254740991
  strict : Bool := false
  deriving DecidableEq, Repr

/-- The state the scanner was in before a bare `\r`; resumed when the byte
after the `\r` is not the newline byte (spec §4.2 `AfterCR` row). -/
inductive CRPrev where
  | csof
  | cinUF
  | cacq
  deriving DecidableEq, Repr

/-- Scanner states of spec §4.2, plus the auxiliary quote-pending and
escape-pending states used when a peek crosses a chunk boundary, and the
comment-discarding state. -/
inductive ScanState where
  | sof
  | inUF
  | inQF
  | acq
  | quotePend
  | escPend
  | afterCR (p : CRPrev)
  | commentLine
  deriving DecidableEq, Repr

def prevState : CRPrev → ScanState
  | .csof => .sof
  | .cinUF => .inUF
  | .cacq => .acq

/-- A record: ordered mapping from header-name bytes to field-value bytes. -/
abbrev Rcd := List (List Nat × List Nat)

/-- Scanner and row-assembler state (spec §3 "Parser state", minus the
encoding front-end fields, which live in `EncState`). -/
structure CoreState where
  scan : ScanState := .sof
  field : List Nat := []
  row : List (List Nat) := []
  rowBytes : Nat := 0
  remSkip : Nat := 0
  headers : Option (List (List Nat)) := none
  queue : List Rcd := []
  err : Option Err := none
  deriving DecidableEq, Repr

/-- Encoding front-end state (spec §4.1): detected mode, buffered possible
BOM bytes while the mode is unknown, the odd-byte carry for UTF-16, and a
pending high surrogate. -/
inductive EncMode where
  | unknown
  | utf8
  | utf16le
  | utf16be
  deriving DecidableEq, Repr

structure EncState where
  mode : EncMode := .unknown
  bomPend : List Nat := []
  carry : Option Nat := none
  pendHigh : Option Nat := none
  deriving DecidableEq, Repr

structure PState where
  enc : EncState := {}
  core : CoreState := {}
  deriving DecidableEq, Repr

/-- Synthetic header name `_k` (spec §3: surplus fields get synthetic
header names `_k` where k is the 0-based position). -/
def synthKey (k : Nat) : List Nat :=
  95 :: (Nat.toDigits 10 k).map Char.toNat

/-- Record construction (spec §4.3 step 4): for each header index `i`,
field `i` if present else the empty string; surplus fields at indices
`i ≥ headers.len()` get synthetic keys `_i`. -/
def buildRecord (hs fs : List (List Nat)) : Rcd :=
  hs.enum.map (fun p => (p.2, fs.getD p.1 [])) ++
    (List.range' hs.length (fs.length - hs.length)).map (fun i => (synthKey i, fs.getD i []))

/-- Close field: append the current field buffer to the current row and
reset the buffer (spec §4.2). -/
def closeField (s : CoreState) : CoreState :=
  { s with row := s.row ++ [s.field], field := [], scan := .sof }

/-- Close row: the row-assembler of spec §4.3 — line skipping, header
acquisition, strict checking and record construction. -/
def closeRow (c : Cfg) (s : CoreState) : CoreState :=
  let fs := s.row
  let base : CoreState :=
    { s with field := [], row := [], rowBytes := 0, scan := ScanState.sof }
  if s.remSkip > 0 then { base with remSkip := s.remSkip - 1 }
  else
    match s.headers with
    | some hs =>
        if c.strict ∧ fs.length ≠ hs.length then
          { base with err := some Err.rowLengthMismatch }
        else { base with queue := s.queue ++ [buildRecord hs fs] }
    | none =>
        match c.headersOpt with
        | .infer => { base with headers := some fs }
        | .given hs =>
            if c.strict ∧ fs.length ≠ hs.length then
              { base with headers := some hs, err := some Err.rowLengthMismatch }
            else { base with headers := some hs, queue := s.queue ++ [buildRecord hs fs] }
        | .disabled =>
            let hs := (List.range fs.length).map synthKey
            { base with headers := some hs, queue := s.queue ++ [buildRecord hs fs] }

/-- Comment detection: enabled, the byte equals the comment byte, and the
row is empty (spec §4.2 "Comments"). -/
def isCommentStart (c : Cfg) (s : CoreState) (b : Nat) : Bool :=
  match c.comment with
  | some cb => b = cb && s.row.isEmpty && s.field.isEmpty
  | none => false

/-- One byte through the state table of spec §4.2, for the base states
(the pending/`AfterCR`/comment states are dispatched in `scanStep`).
Ambiguity between configuration bytes is resolved by the priority
quote > escape > separator > newline > comment of spec §6. -/
def scanCore (c : Cfg) (s : CoreState) (b : Nat) : CoreState :=
  match s.scan with
  | .sof =>
      if b = c.quote then { s with scan := .inQF }
      else if b = c.separator then closeField s
      else if b = c.newline then closeRow c (closeField s)
      else if b = 13 then { s with scan := .afterCR .csof }
      else if isCommentStart c s b then { s with scan := .commentLine }
      else { s with field := s.field ++ [b], scan := .inUF }
  | .inUF =>
      if b = c.separator then closeField s
      else if b = c.newline then closeRow c (closeField s)
      else if b = 13 then { s with scan := .afterCR .cinUF }
      else { s with field := s.field ++ [b] }
  | .inQF =>
      if b = c.quote then
        if c.escape = c.quote then { s with scan := .quotePend }
        else { s with scan := .acq }
      else if b = c.escape then { s with scan := .escPend }
      else { s with field := s.field ++ [b] }
  | .acq =>
      if b = c.quote then { s with field := s.field ++ [b] }
      else if b = c.separator then closeField s
      else if b = c.newline then closeRow c (closeField s)
      else if b = 13 then { s with scan := .afterCR .cacq }
      else { s with field := s.field ++ [b] }
  | _ => s

/-- One byte through the scanner: resolves the pending states first.  In
`quotePend` the byte completes the doubled-quote peek of spec §4.2; if it
is not the quote byte it has not been consumed by the peek and is
re-processed from `AfterClosingQuote`.  Likewise for `escPend`. -/
def scanStep (c : Cfg) (s : CoreState) (b : Nat) : CoreState :=
  match s.scan with
  | .quotePend =>
      if b = c.quote then { s with field := s.field ++ [b], scan := .inQF }
      else scanCore c { s with scan := .acq } b
  | .escPend =>
      if b = c.quote then { s with field := s.field ++ [b], scan := .inQF }
      else scanCore c { s with scan := .inQF, field := s.field ++ [c.escape] } b
  | .afterCR p =>
      if b = 13 then s
      else scanCore c { s with scan := prevState p } b
  | .commentLine =>
      if b = c.newline then { s with scan := .sof, rowBytes := 0 }
      else s
  | _ => scanCore c s b

/-- One UTF-8-view byte into the core: poisoned states are inert, the
byte counts against `maxRowBytes` before anything else (spec §4.2
"Row-byte accounting"), then the scanner runs. -/
def feedU8 (c : Cfg) (s : CoreState) (b : Nat) : CoreState :=
  if s.err.isSome then s
  else if c.maxRowBytes < s.rowBytes + 1 then { s with err := some Err.rowTooLarge }
  else scanStep c { s with rowBytes := s.rowBytes + 1 } b

def feedU8s (c : Cfg) (s : CoreState) (bs : List Nat) : CoreState :=
  bs.foldl (feedU8 c) s

/-- UTF-8 encoding of a code point (spec §4.1 "Transcoding"). -/
def utf8Enc (cp : Nat) : List Nat :=
  if cp < 128 then [cp]
  else if cp < 2048 then [192 + cp / 64, 128 + cp % 64]
  else if cp < 65536 then [224 + cp / 4096, 128 + cp / 64 % 64, 128 + cp % 64]
  else [240 + cp / 262144, 128 + cp / 4096 % 64, 128 + cp / 64 % 64, 128 + cp % 64]

def isHighSur (u : Nat) : Bool := decide (55296 ≤ u ∧ u < 56320)

def isLowSur (u : Nat) : Bool := decide (56320 ≤ u ∧ u < 57344)

/-- One decoded UTF-16 code unit: surrogate pairs are combined, unpaired
surrogates become U+FFFD (spec §4.1), and the resulting code point is
re-encoded as UTF-8 and fed to the scanner. -/
def feedUnit (c : Cfg) (s : PState) (u : Nat) : PState :=
  if isHighSur u then
    match s.enc.pendHigh with
    | none => ⟨{ s.enc with pendHigh := some u }, s.core⟩
    | some _ => ⟨{ s.enc with pendHigh := some u }, feedU8s c s.core (utf8Enc 65533)⟩
  else if isLowSur u then
    match s.enc.pendHigh with
    | some h =>
        ⟨{ s.enc with pendHigh := none },
          feedU8s c s.core (utf8Enc (65536 + (h - 55296) * 1024 + (u - 56320)))⟩
    | none => ⟨s.enc, feedU8s c s.core (utf8Enc 65533)⟩
  else
    match s.enc.pendHigh with
    | some _ => ⟨{ s.enc with pendHigh := none }, feedU8s c s.core (utf8Enc 65533 ++ utf8Enc u)⟩
    | none => ⟨s.enc, feedU8s c s.core (utf8Enc u)⟩

/-- One raw input byte into the parser: BOM detection while the mode is
unknown (spec §4.1 "Detection", holding the decision while only a BOM
prefix has been seen), pairing of bytes into code units for UTF-16, and
passthrough for UTF-8. -/
def stepByte (c : Cfg) (s : PState) (b : Nat) : PState :=
  if s.core.err.isSome then s
  else
    match s.enc.mode with
    | .utf8 => ⟨s.enc, feedU8 c s.core b⟩
    | .utf16le =>
        match s.enc.carry with
        | none => ⟨{ s.enc with carry := some b }, s.core⟩
        | some c0 => feedUnit c ⟨{ s.enc with carry := none }, s.core⟩ (c0 + 256 * b)
    | .utf16be =>
        match s.enc.carry with
        | none => ⟨{ s.enc with carry := some b }, s.core⟩
        | some c0 => feedUnit c ⟨{ s.enc with carry := none }, s.core⟩ (256 * c0 + b)
    | .unknown =>
        match s.enc.bomPend with
        | [] =>
            if b = 255 ∨ b = 254 ∨ b = 239 then ⟨{ s.enc with bomPend := [b] }, s.core⟩
            else ⟨{ s.enc with mode := .utf8, bomPend := [] }, feedU8 c s.core b⟩
        | [p0] =>
            if p0 = 255 ∧ b = 254 then ⟨{ s.enc with mode := .utf16le, bomPend := [] }, s.core⟩
            else if p0 = 254 ∧ b = 255 then
              ⟨{ s.enc with mode := .utf16be, bomPend := [] }, s.core⟩
            else if p0 = 239 ∧ b = 187 then ⟨{ s.enc with bomPend := [239, 187] }, s.core⟩
            else ⟨{ s.enc with mode := .utf8, bomPend := [] }, feedU8s c s.core [p0, b]⟩
        | ps =>
            if b = 191 then ⟨{ s.enc with mode := .utf8, bomPend := [] }, s.core⟩
            else ⟨{ s.enc with mode := .utf8, bomPend := [] }, feedU8s c s.core (ps ++ [b])⟩

def initCore (c : Cfg) : CoreState := { remSkip := c.skipLines }

def initPS (c : Cfg) : PState := ⟨{}, initCore c⟩

def runBytes (c : Cfg) (s : PState) (bs : List Nat) : PState :=
  bs.foldl (stepByte c) s

/-- End-of-input for the scanner (spec §4.4 `flush`): an open quoted field
is the fatal `UnterminatedQuote`; an open last field without a trailing
newline is committed as a complete row. -/
def finishScan (c : Cfg) (s : CoreState) : CoreState :=
  if s.err.isSome then s
  else
    match s.scan with
    | .inQF => { s with err := some Err.unterminatedQuote }
    | .escPend => { s with err := some Err.unterminatedQuote }
    | .quotePend => closeRow c (closeField s)
    | .acq => closeRow c (closeField s)
    | .commentLine => s
    | _ =>
        if s.field.isEmpty && s.row.isEmpty then s else closeRow c (closeField s)

/-- End-of-input for the encoding front-end: buffered BOM-prefix bytes are
released as UTF-8 data; a truncated UTF-16 code unit is the fatal
`InvalidEncoding`; a pending high surrogate becomes U+FFFD (spec §4.1
"Errors"). -/
def flushEnc (c : Cfg) (s : PState) : PState :=
  if s.core.err.isSome then s
  else
    match s.enc.mode with
    | .unknown => ⟨⟨.utf8, [], none, none⟩, feedU8s c s.core s.enc.bomPend⟩
    | .utf8 => s
    | _ =>
        if s.enc.carry.isSome then ⟨s.enc, { s.core with err := some Err.invalidEncoding }⟩
        else
          match s.enc.pendHigh with
          | some _ => ⟨{ s.enc with pendHigh := none }, feedU8s c s.core (utf8Enc 65533)⟩
          | none => s

/-- The observable outcome of a parse: the record sequence in emission
order, the installed headers, and the error if the parse failed.  Records
emitted before an error remain in the sequence (spec §7 "Propagation"). -/
structure ParseResult where
  records : List Rcd
  headers : Option (List (List Nat))
  err : Option Err
  deriving DecidableEq, Repr

def resultOfCore (c : Cfg) (s : CoreState) : ParseResult :=
  let f := finishScan c s
  { records := f.queue, headers := f.headers, err := f.err }

def flushResult (c : Cfg) (s : PState) : ParseResult :=
  resultOfCore c (flushEnc c s).core

/-- Parse a whole byte sequence delivered as one chunk. -/
def parseBytes (c : Cfg) (bs : List Nat) : ParseResult :=
  flushResult c (runBytes c (initPS c) bs)

/-- Parse a byte sequence delivered as successive chunks. -/
def parseChunks (c : Cfg) (css : List (List Nat)) : ParseResult :=
  flushResult c (css.foldl (runBytes c) (initPS c))

/-- UTF-8 bytes of a Lean string, used only to write concrete inputs. -/
def strBytes (s : String) : List Nat :=
  s.data.foldr (fun ch acc => utf8Enc ch.toNat ++ acc) []

def cfgDefault : Cfg := {}

/-! ### The streaming adapter (embedded from the JavaScript source)

`CsvParserStream` merges its options argument with a defaults block,
turns an array argument into a headers option, and post-processes each
record through the `mapValues` and `mapHeaders` callbacks. -/

/-- The adapter's `headers` option: absent/null (infer), `false`
(synthetic names), or an explicit array of names. -/
inductive JsHeadersOpt where
  | auto
  | off
  | list (hs : List String)
  deriving DecidableEq

/-- The adapter's defaults block (part_000, `defaults`): escape `"`,
newline `\n`, quote `"`, separator `,`, no comments, no skipped lines,
`maxRowBytes = Number.MAX_SAFE_INTEGER`, non-strict. -/
structure JsOptions where
  escape : Nat := 34
  headers : JsHeadersOpt := .auto
  newline : Nat := 10
  quote : Nat := 34
  separator : Nat := 44
  skipComments : Option Nat := none
  skipLines : Nat := 0
  maxRowBytes : Nat := 9007199254740991
  strict : Bool := false
  deriving DecidableEq

/-- The option bag handed to the native parser. -/
def optionsToCfg (o : JsOptions) : Cfg :=
  { separator := o.separator, quote := o.quote, escape := o.escape,
    newline := o.newline,
    headersOpt :=
      match o.headers with
      | .auto => .infer
      | .off => .disabled
      | .list hs => .given (hs.map strBytes),
    skipLines := o.skipLines, comment := o.skipComments,
    maxRowBytes := o.maxRowBytes, strict := o.strict }

/-- The argument of the `csv(options)` factory: either an array of header
names or an option object. -/
inductive CsvArg where
  | arr (hs : List String)
  | opts (o : JsOptions)

/-- part_000 constructor: an array argument becomes `{ headers: options }`
before the merge with the defaults. -/
def argOptions : CsvArg → JsOptions
  | .arr hs => { headers := .list hs }
  | .opts o => o

def csvParse (a : CsvArg) (bs : List Nat) : ParseResult :=
  parseBytes (optionsToCfg (argOptions a)) bs

/-- JavaScript property read `row[k]` on a record object. -/
def jsGet (row : List (String × String)) (k : String) : Option String :=
  match row with
  | [] => none
  | p :: rest => if p.1 = k then some p.2 else jsGet rest k

/-- JavaScript `headers.indexOf(key)`: the index of the first occurrence,
or -1 when absent. -/
def jsIndexOf (hs : List String) (h : String) : Int :=
  if h ∈ hs then ((List.indexOf h hs : Nat) : Int) else -1

/-- part_000 `_processRow`, mapValues block: every cell is rewritten by
`mapValues({header, index, value})` where `index` is
`headers.indexOf(key)` (or -1 without headers). -/
def applyMapValues (mv : String → Int → String → String) (headers : Option (List String))
    (row : List (String × String)) : List (String × String) :=
  row.map (fun p =>
    (p.1, mv p.1 (match headers with | some hs => jsIndexOf hs p.1 | none => -1) p.2))

/-- part_000 `_processRow`, mapHeaders block: the record is rebuilt from
the header list; a column whose `mapHeaders({header, index})` result is
null or undefined is skipped.  A key missing from the row reads as the
empty value. -/
def applyMapHeaders (mh : String → Nat → Option String) (hs : List String)
    (row : List (String × String)) : List (String × String) :=
  hs.enum.filterMap (fun q =>
    match mh q.2 q.1 with
    | some h2 => some (h2, (jsGet row q.2).getD "")
    | none => none)

/-- part_000 `_processRow`: the mapValues block runs first (when the
callback is not the default), then the mapHeaders block (when that
callback is not the default and headers are available). -/
def processRow (mv : Option (String → Int → String → String))
    (mh : Option (String → Nat → Option String))
    (headers : Option (List String)) (row : List (String × String)) :
    List (String × String) :=
  let row1 :=
    match mv with
    | some f => applyMapValues f headers row
    | none => row
  match mh, headers with
  | some g, some hs => applyMapHeaders g hs row1
  | _, _ => row1


/-! ### Auxiliary definitions for the encoding and skip-lines properties -/

/-- True when the byte sequence does not start with a byte that could open
a BOM (so encoding detection resolves to UTF-8 on the first byte). -/
def noBomHead (bs : List Nat) : Bool :=
  match bs with
  | [] => true
  | b :: _ => decide (b ≠ 255 ∧ b ≠ 254 ∧ b ≠ 239)

/-- A Unicode scalar value: in range and not a surrogate. -/
def isScalar (v : Nat) : Bool := decide (v < 1114112 ∧ (v < 55296 ∨ 57344 ≤ v))

/-- UTF-16 LE code-unit bytes of one scalar value (low byte first). -/
def u16leBytes (v : Nat) : List Nat :=
  if v < 65536 then [v % 256, v / 256]
  else
    let m := v - 65536
    let hsur := 55296 + m / 1024
    let lsur := 56320 + m % 1024
    [hsur % 256, hsur / 256, lsur % 256, lsur / 256]

/-- UTF-16 BE code-unit bytes of one scalar value (high byte first). -/
def u16beBytes (v : Nat) : List Nat :=
  if v < 65536 then [v / 256, v % 256]
  else
    let m := v - 65536
    let hsur := 55296 + m / 1024
    let lsur := 56320 + m % 1024
    [hsur / 256, hsur % 256, lsur / 256, lsur % 256]

def utf16leAll (vs : List Nat) : List Nat := (vs.map u16leBytes).flatten

def utf16beAll (vs : List Nat) : List Nat := (vs.map u16beBytes).flatten

def utf8EncAll (vs : List Nat) : List Nat := (vs.map utf8Enc).flatten

/-- The input stream formed by terminating each line with the newline byte. -/
def joinLines (c : Cfg) (ls : List (List Nat)) : List Nat :=
  (ls.map (fun L => L ++ [c.newline])).flatten

/-- The scanner alone (no row-byte accounting), run over a byte list. -/
def scanRun (c : Cfg) (s : CoreState) (bs : List Nat) : CoreState :=
  bs.foldl (scanStep c) s

/-- The canonical state at the start of a row: everything fresh, nothing
to skip, no headers. Running the scanner on a line from here probes the
line's row structure: the row assembler fires iff a row boundary is hit,
and then it always installs headers, so headers staying `none` witnesses
that the line closed no row. -/
def rowStart : CoreState := {}

/-- Scanner states that a single complete row may end in just before its
newline: anything except an open quoted field (and the comment state,
which cannot occur when comment handling is off). -/
def scanEndOk : ScanState → Bool
  | .inQF => false
  | .escPend => false
  | .commentLine => false
  | _ => true

end FastCsv

namespace FastCsv

/-! ### Basic lemmas about the model -/

lemma runBytes_append (c : Cfg) (s : PState) (as bs : List Nat) :
    runBytes c s (as ++ bs) = runBytes c (runBytes c s as) bs := by
  simp [runBytes, List.foldl_append]

lemma foldl_runBytes_flatten (c : Cfg) (css : List (List Nat)) (s : PState) :
    css.foldl (runBytes c) s = runBytes c s css.flatten := by
  induction css generalizing s with
  | nil => simp [runBytes]
  | cons l ls ih => simp [List.flatten, runBytes_append, ih]

lemma closeRow_rowBytes (c : Cfg) (s : CoreState) : (closeRow c s).rowBytes = 0 := by
  unfold closeRow
  cases s.headers <;> cases c.headersOpt <;> simp <;> split_ifs <;> rfl

lemma closeRow_scan (c : Cfg) (s : CoreState) : (closeRow c s).scan = .sof := by
  unfold closeRow
  cases s.headers <;> cases c.headersOpt <;> simp <;> split_ifs <;> rfl

lemma scanCore_rowBytes (c : Cfg) (s : CoreState) (b : Nat) :
    (scanCore c s b).rowBytes = s.rowBytes ∨ (scanCore c s b).rowBytes = 0 := by
  obtain ⟨sc, f, r, rb, rs, hd, q, e⟩ := s
  cases sc <;> simp [scanCore] <;> split_ifs <;>
    simp [closeField, closeRow_rowBytes]

lemma scanStep_rowBytes (c : Cfg) (s : CoreState) (b : Nat) :
    (scanStep c s b).rowBytes = s.rowBytes ∨ (scanStep c s b).rowBytes = 0 := by
  obtain ⟨sc, f, r, rb, rs, hd, q, e⟩ := s
  cases sc <;> simp only [scanStep] <;>
    first
      | (apply scanCore_rowBytes)
      | (split_ifs <;> first
          | simp
          | (apply scanCore_rowBytes))

end FastCsv

namespace FastCsv

/-! ### C1: chunk invariance and determinism -/

/-- C1. Chunk-invariance and determinism: for every configuration and
every input byte string, feeding the bytes in any partition into chunks
via successive push calls followed by flush yields the same parse result
(record sequence, installed headers, error) as feeding the whole string
at once; the result is a pure function of the configuration and the
concatenated bytes, independent of chunk boundaries. -/
theorem c1_chunk_invariance (c : Cfg) (css : List (List Nat)) :
    parseChunks c css = parseBytes c css.flatten := by
  unfold parseChunks parseBytes
  rw [foldl_runBytes_flatten]

/-! ### C2: non-strict record shape -/

/-- C2. Non-strict record shape: with strict = false, a completed row is
always bound to the installed headers and emitted (no error); in the
record built from headers and fields, each header position with no
corresponding field is bound to the empty string, and each surplus field
at position k beyond the headers appears under the synthetic key `_k`. -/
theorem c2_nonstrict_shape :
    (∀ (c : Cfg) (s : CoreState) (hs : List (List Nat)),
        c.strict = false → s.remSkip = 0 → s.headers = some hs →
        (closeRow c s).queue = s.queue ++ [buildRecord hs s.row] ∧
          (closeRow c s).headers = some hs ∧ (closeRow c s).err = s.err) ∧
    (∀ hs fs : List (List Nat),
        (buildRecord hs fs).length = max hs.length fs.length ∧
        (∀ i, i < hs.length → (buildRecord hs fs)[i]? = some (hs.getD i [], fs.getD i [])) ∧
        (∀ i, hs.length ≤ i → i < fs.length →
          (buildRecord hs fs)[i]? = some (synthKey i, fs.getD i []))) := by
  constructor
  · intro c s hs hstrict hrs hh
    unfold closeRow
    simp [hrs, hh, hstrict]
  · intro hs fs
    refine ⟨?_, ?_, ?_⟩
    · simp [buildRecord]
      omega
    · intro i hi
      unfold buildRecord
      rw [List.getElem?_append, if_pos (by simpa using hi)]
      simp [List.getElem?_enum, List.getElem?_eq_getElem hi, List.getD_eq_getElem?_getD]
    · intro i hlb hub
      unfold buildRecord
      rw [List.getElem?_append_right (by simpa using hlb)]
      simp only [List.length_map, List.enum_length, List.getElem?_map]
      rw [List.getElem?_range' _ _ (by omega)]
      have h : hs.length + (i - hs.length) = i := by omega
      simp [h]

/-- C2 witness: headers a,b,c with a two-field row gives empty-string
padding; headers a,b with a three-field row gives the synthetic `_2`. -/
theorem c2_nonstrict_shape_witness :
    (closeRow cfgDefault
        { scan := .sof, field := [], row := [[49], [50]], rowBytes := 0, remSkip := 0,
          headers := some [[97], [98], [99]], queue := [], err := none }).queue =
      [] ++ [buildRecord [[97], [98], [99]] [[49], [50]]] ∧
    (buildRecord [[97], [98], [99]] [[49], [50]])[2]? = some ([99], []) ∧
    (buildRecord [[97], [98]] [[49], [50], [51]])[2]? = some (synthKey 2, [51]) := by
  refine ⟨(c2_nonstrict_shape.1 cfgDefault _ _ rfl rfl rfl).1, ?_, ?_⟩
  · have h := (c2_nonstrict_shape.2 [[97], [98], [99]] [[49], [50]]).2.1 2 (by decide)
    simpa using h
  · exact (c2_nonstrict_shape.2 [[97], [98]] [[49], [50], [51]]).2.2 2 (by decide) (by decide)

/-! ### C3: strict mismatch error -/

/-- C3. Strict mismatch: with strict = true and headers installed, a
completed row whose field count differs from the header count poisons the
parser with `RowLengthMismatch`, whose message is "Row length does not
match headers"; no record is appended for the bad row, all previously
assembled records are still in the flushed output, and the poisoned
parser ignores further input. -/
theorem c3_strict_mismatch (c : Cfg) (s : CoreState) (hs : List (List Nat))
    (e : EncState) (b : Nat)
    (hstrict : c.strict = true) (hrs : s.remSkip = 0) (hh : s.headers = some hs)
    (hlen : s.row.length ≠ hs.length) :
    (closeRow c s).err = some Err.rowLengthMismatch ∧
    (closeRow c s).queue = s.queue ∧
    errMessage Err.rowLengthMismatch = "Row length does not match headers" ∧
    (flushResult c ⟨e, closeRow c s⟩).records = s.queue ∧
    (flushResult c ⟨e, closeRow c s⟩).err = some Err.rowLengthMismatch ∧
    stepByte c ⟨e, closeRow c s⟩ b = ⟨e, closeRow c s⟩ := by
  have herr : (closeRow c s).err = some Err.rowLengthMismatch := by
    unfold closeRow
    simp [hrs, hh, hstrict, hlen]
  have hq : (closeRow c s).queue = s.queue := by
    unfold closeRow
    simp [hrs, hh, hstrict, hlen]
  refine ⟨herr, hq, rfl, ?_, ?_, ?_⟩
  · simp [flushResult, flushEnc, resultOfCore, finishScan, herr, hq]
  · simp [flushResult, flushEnc, resultOfCore, finishScan, herr]
  · simp [stepByte, herr]

/-- C3 witness: headers a,b,c and a two-field row. -/
theorem c3_strict_mismatch_witness :
    (closeRow { cfgDefault with strict := true }
        { scan := .sof, field := [], row := [[52], [53]], rowBytes := 0, remSkip := 0,
          headers := some [[97], [98], [99]],
          queue := [[([97], [49]), ([98], [50]), ([99], [51])]], err := none }).err =
      some Err.rowLengthMismatch ∧
    (flushResult { cfgDefault with strict := true }
        ⟨{}, closeRow { cfgDefault with strict := true }
          { scan := .sof, field := [], row := [[52], [53]], rowBytes := 0, remSkip := 0,
            headers := some [[97], [98], [99]],
            queue := [[([97], [49]), ([98], [50]), ([99], [51])]], err := none }⟩).records =
      [[([97], [49]), ([98], [50]), ([99], [51])]] := by
  have h := c3_strict_mismatch { cfgDefault with strict := true }
    { scan := .sof, field := [], row := [[52], [53]], rowBytes := 0, remSkip := 0,
      headers := some [[97], [98], [99]],
      queue := [[([97], [49]), ([98], [50]), ([99], [51])]], err := none }
    [[97], [98], [99]] {} 0 rfl rfl rfl (by decide)
  exact ⟨h.1, h.2.2.2.1⟩

/-! ### C4: row size cap -/

/-- C4. Row size cap: every byte fed to the scanner counts against
`maxRowBytes` regardless of its kind (quote, separator, newline or data):
when the running count would exceed the cap the parser is poisoned with
`RowTooLarge` immediately, whose message is "Row exceeds the maximum
size", previously emitted records survive the flush and further input is
ignored; otherwise the row byte count increases by exactly one, except
that a completed row boundary resets it to zero. -/
theorem c4_row_size_cap (c : Cfg) (s : CoreState) (b b2 : Nat) (e : EncState)
    (herr : s.err = none) :
    (c.maxRowBytes < s.rowBytes + 1 →
      feedU8 c s b = { s with err := some Err.rowTooLarge } ∧
      (flushResult c ⟨e, feedU8 c s b⟩).records = s.queue ∧
      stepByte c ⟨e, feedU8 c s b⟩ b2 = ⟨e, feedU8 c s b⟩) ∧
    (s.rowBytes + 1 ≤ c.maxRowBytes →
      (feedU8 c s b).rowBytes = s.rowBytes + 1 ∨ (feedU8 c s b).rowBytes = 0) ∧
    errMessage Err.rowTooLarge = "Row exceeds the maximum size" := by
  refine ⟨?_, ?_, rfl⟩
  · intro hover
    have hfeed : feedU8 c s b = { s with err := some Err.rowTooLarge } := by
      unfold feedU8
      simp [herr, hover]
    refine ⟨hfeed, ?_, ?_⟩
    · simp [hfeed, flushResult, flushEnc, resultOfCore, finishScan]
    · simp [hfeed, stepByte]
  · intro hok
    have hfeed : feedU8 c s b = scanStep c { s with rowBytes := s.rowBytes + 1 } b := by
      unfold feedU8
      simp [herr]
      omega
    rw [hfeed]
    have h := scanStep_rowBytes c { s with rowBytes := s.rowBytes + 1 } b
    simpa using h

/-- C4 witness: a two-byte cap is exceeded by the third byte of a row. -/
theorem c4_row_size_cap_witness :
    feedU8 { cfgDefault with maxRowBytes := 2 }
        { scan := .inUF, field := [97, 98], row := [], rowBytes := 2, remSkip := 0,
          headers := some [[104]], queue := [], err := none } 99 =
      { scan := .inUF, field := [97, 98], row := [], rowBytes := 2, remSkip := 0,
        headers := some [[104]], queue := [], err := some Err.rowTooLarge } := by
  exact ((c4_row_size_cap { cfgDefault with maxRowBytes := 2 }
    { scan := .inUF, field := [97, 98], row := [], rowBytes := 2, remSkip := 0,
      headers := some [[104]], queue := [], err := none } 99 0 {} rfl).1 (by decide)).1

end FastCsv

namespace FastCsv

/-! ### C6: doubled-quote escape -/

/-- C6. Doubled-quote escape with escape = quote: in `InQuotedField` the
quote byte parks the scanner in the quote-pending peek state; if the next
byte is the quote byte again exactly one quote byte is appended to the
field and the scanner stays in `InQuotedField`, otherwise that byte is
processed from `AfterClosingQuote` (it was not consumed by the peek); and
the concrete input `a\n"ha ""ha"" ha"\n` parses to the single record
binding a to `ha "ha" ha`. -/
theorem c6_doubled_quote (c : Cfg) (s : CoreState) (b : Nat)
    (heq : c.escape = c.quote) (hscan : s.scan = .inQF) :
    scanStep c s c.quote = { s with scan := .quotePend } ∧
    scanStep c { s with scan := .quotePend } c.quote
      = { s with field := s.field ++ [c.quote], scan := .inQF } ∧
    (b ≠ c.quote →
      scanStep c { s with scan := .quotePend } b = scanStep c { s with scan := .acq } b) ∧
    parseBytes cfgDefault (strBytes ("a\n\"ha \"\"ha\"\" ha\"\n")) =
      { records := [[(strBytes ("a"), strBytes ("ha \"ha\" ha"))]],
        headers := some [strBytes ("a")], err := none } := by
  obtain ⟨sc, f, r, rb, rs, hd, q, e⟩ := s
  simp only [CoreState.mk.injEq] at hscan
  subst hscan
  refine ⟨?_, ?_, ?_, by decide⟩
  · simp [scanStep, scanCore, heq]
  · simp [scanStep]
  · intro hb
    simp [scanStep, hb]

/-- C6 witness: with the default configuration (escape = quote = 34), a
quote inside a quoted field parks the scanner, and a following non-quote
byte is handled from `AfterClosingQuote`. -/
theorem c6_doubled_quote_witness :
    scanStep cfgDefault
        { scan := .inQF, field := [104], row := [], rowBytes := 2, remSkip := 0,
          headers := none, queue := [], err := none } 34 =
      { scan := .quotePend, field := [104], row := [], rowBytes := 2, remSkip := 0,
        headers := none, queue := [], err := none } ∧
    scanStep cfgDefault
        { scan := .quotePend, field := [104], row := [], rowBytes := 2, remSkip := 0,
          headers := none, queue := [], err := none } 44 =
      scanStep cfgDefault
        { scan := .acq, field := [104], row := [], rowBytes := 2, remSkip := 0,
          headers := none, queue := [], err := none } 44 := by
  have h := c6_doubled_quote cfgDefault
    { scan := .inQF, field := [104], row := [], rowBytes := 2, remSkip := 0,
      headers := none, queue := [], err := none } 44 rfl rfl
  exact ⟨h.1, h.2.2.1 (by decide)⟩

end FastCsv

namespace FastCsv

lemma closeRow_field (c : Cfg) (s : CoreState) : (closeRow c s).field = [] := by
  unfold closeRow
  cases s.headers <;> cases c.headersOpt <;> simp <;> split_ifs <;> rfl

lemma closeRow_row (c : Cfg) (s : CoreState) : (closeRow c s).row = [] := by
  unfold closeRow
  cases s.headers <;> cases c.headersOpt <;> simp <;> split_ifs <;> rfl

lemma closeRow_closeField_eq (c : Cfg) (s t : CoreState)
    (hf : s.field = t.field) (hr : s.row = t.row) (hrs : s.remSkip = t.remSkip)
    (hh : s.headers = t.headers) (hq : s.queue = t.queue) (he : s.err = t.err) :
    closeRow c (closeField s) = closeRow c (closeField t) := by
  obtain ⟨sc1, f1, r1, rb1, rs1, hd1, q1, e1⟩ := s
  obtain ⟨sc2, f2, r2, rb2, rs2, hd2, q2, e2⟩ := t
  simp only at hf hr hrs hh hq he
  subst hf hr hrs hh hq he
  rfl

lemma flushEnc_u8 (c : Cfg) (e : EncState) (s : CoreState) (hmode : e.mode = .utf8) :
    flushEnc c ⟨e, s⟩ = ⟨e, s⟩ := by
  unfold flushEnc
  simp only [hmode]
  split <;> rfl

lemma finishScan_closeRow (c : Cfg) (t : CoreState) :
    finishScan c (closeRow c t) = closeRow c t := by
  unfold finishScan
  rcases herr : (closeRow c t).err with _ | e
  · simp only [herr, Option.isSome_none, Bool.false_eq_true, if_false]
    rw [closeRow_scan]
    simp [closeRow_field, closeRow_row]
  · simp [herr]

/-! ### C8: flush termination behaviour -/

/-- C8. Flush termination: when the scanner holds an open row (an open
unquoted field, a field just closed by a quote, or a pending field list at
start-of-field), flushing commits it as a complete final row — so feeding
one trailing newline before the flush yields exactly the same parse
result; and flushing in `InQuotedField` fails with `UnterminatedQuote`,
keeping the previously emitted records. -/
theorem c8_flush_semantics (c : Cfg) (s : CoreState) (e : EncState)
    (herr : s.err = none) (hmode : e.mode = .utf8)
    (hq : c.quote ≠ c.newline) (hsep : c.separator ≠ c.newline) :
    (((s.scan = .inUF ∧ (s.field ≠ [] ∨ s.row ≠ [])) ∨ s.scan = .acq ∨
        (s.scan = .sof ∧ s.row ≠ [])) →
      finishScan c s = closeRow c (closeField s) ∧
      (s.rowBytes < c.maxRowBytes →
        flushResult c (stepByte c ⟨e, s⟩ c.newline) = flushResult c ⟨e, s⟩)) ∧
    (s.scan = .inQF →
      (flushResult c ⟨e, s⟩).err = some Err.unterminatedQuote ∧
      (flushResult c ⟨e, s⟩).records = s.queue) := by
  constructor
  · intro hopen
    have hfin : finishScan c s = closeRow c (closeField s) := by
      rcases hopen with ⟨h1, h2⟩ | h1 | ⟨h1, h2⟩
      · have hne : (s.field.isEmpty && s.row.isEmpty) = false := by
          rcases h2 with h2 | h2 <;> simp [List.isEmpty_iff, h2]
        unfold finishScan
        simp [herr, h1, hne]
      · unfold finishScan
        simp [herr, h1]
      · have hne : (s.field.isEmpty && s.row.isEmpty) = false := by
          simp [List.isEmpty_iff, h2]
        unfold finishScan
        simp [herr, h1, hne]
    refine ⟨hfin, ?_⟩
    intro hrb
    have hstep : stepByte c ⟨e, s⟩ c.newline = ⟨e, closeRow c (closeField s)⟩ := by
      have hfeed : feedU8 c s c.newline = closeRow c (closeField s) := by
        unfold feedU8
        rw [if_neg (by simp [herr]), if_neg (by omega)]
        rcases hopen with ⟨h1, _⟩ | h1 | ⟨h1, _⟩
        · unfold scanStep scanCore
          simp only [h1]
          rw [if_neg (fun hc => hsep hc.symm), if_pos trivial]
          exact closeRow_closeField_eq c _ s rfl rfl rfl rfl rfl rfl
        · unfold scanStep scanCore
          simp only [h1]
          rw [if_neg (fun hc => hq hc.symm), if_neg (fun hc => hsep hc.symm), if_pos trivial]
          exact closeRow_closeField_eq c _ s rfl rfl rfl rfl rfl rfl
        · unfold scanStep scanCore
          simp only [h1]
          rw [if_neg (fun hc => hq hc.symm), if_neg (fun hc => hsep hc.symm), if_pos trivial]
          exact closeRow_closeField_eq c _ s rfl rfl rfl rfl rfl rfl
      unfold stepByte
      rw [if_neg (by simp [herr])]
      simp only [hmode]
      rw [hfeed]
    rw [hstep]
    unfold flushResult
    rw [flushEnc_u8 c e _ hmode, flushEnc_u8 c e s hmode]
    simp only [resultOfCore]
    rw [finishScan_closeRow, hfin]
  · intro hscan
    unfold flushResult
    rw [flushEnc_u8 c e s hmode]
    simp only [resultOfCore]
    unfold finishScan
    simp [herr, hscan]

/-- C8 witness: an open unquoted field at end of input; a trailing newline
does not change the parse result. -/
theorem c8_flush_semantics_witness :
    finishScan cfgDefault
        { scan := .inUF, field := [53, 54], row := [[52]], rowBytes := 5, remSkip := 0,
          headers := some [[104], [105]], queue := [], err := none } =
      closeRow cfgDefault
        (closeField
          { scan := .inUF, field := [53, 54], row := [[52]], rowBytes := 5, remSkip := 0,
            headers := some [[104], [105]], queue := [], err := none }) ∧
    flushResult cfgDefault
        (stepByte cfgDefault
          ⟨⟨.utf8, [], none, none⟩,
            { scan := .inUF, field := [53, 54], row := [[52]], rowBytes := 5, remSkip := 0,
              headers := some [[104], [105]], queue := [], err := none }⟩ 10) =
      flushResult cfgDefault
        ⟨⟨.utf8, [], none, none⟩,
          { scan := .inUF, field := [53, 54], row := [[52]], rowBytes := 5, remSkip := 0,
            headers := some [[104], [105]], queue := [], err := none }⟩ := by
  have h := (c8_flush_semantics cfgDefault
    { scan := .inUF, field := [53, 54], row := [[52]], rowBytes := 5, remSkip := 0,
      headers := some [[104], [105]], queue := [], err := none }
    ⟨.utf8, [], none, none⟩ rfl rfl (by decide) (by decide)).1
    (Or.inl ⟨rfl, Or.inl (by decide)⟩)
  exact ⟨h.1, h.2 (by decide)⟩

end FastCsv

namespace FastCsv

lemma jsGet_map (row : List (String × String)) (g : String → String → String) (k : String) :
    jsGet (row.map (fun p => (p.1, g p.1 p.2))) k = (jsGet row k).map (g k) := by
  induction row with
  | nil => rfl
  | cons p rest ih =>
      by_cases hk : p.1 = k
      · subst hk
        simp [jsGet]
      · simp [jsGet, hk, ih]

/-! ### C9: an array argument means headers -/

/-- C9. Array argument: constructing the adapter with an array is the
same as constructing it with `{headers: A}` — the parses agree on every
input; and with literally-given headers, the first completed row installs
them and is itself turned into a record (it is not consumed as a header
row). -/
theorem c9_array_headers :
    (∀ (A : List String) (bs : List Nat),
        csvParse (.arr A) bs = csvParse (.opts { headers := .list A }) bs) ∧
    (∀ (c : Cfg) (s : CoreState) (hs : List (List Nat)),
        c.headersOpt = .given hs → s.headers = none → s.remSkip = 0 →
        ¬(c.strict = true ∧ s.row.length ≠ hs.length) →
        (closeRow c s).headers = some hs ∧
        (closeRow c s).queue = s.queue ++ [buildRecord hs s.row]) := by
  constructor
  · intro A bs
    rfl
  · intro c s hs hc hh hrs hstrict
    unfold closeRow
    simp [hrs, hh, hc, hstrict]

/-- C9 witness: headers x,y given literally; the first row becomes data. -/
theorem c9_array_headers_witness :
    csvParse (.arr ["x"]) [49, 10] = csvParse (.opts { headers := .list ["x"] }) [49, 10] ∧
    (closeRow { cfgDefault with headersOpt := .given [[120], [121]] }
        { scan := .sof, field := [], row := [[49], [50]], rowBytes := 0, remSkip := 0,
          headers := none, queue := [], err := none }).queue =
      [] ++ [buildRecord [[120], [121]] [[49], [50]]] := by
  refine ⟨c9_array_headers.1 ["x"] [49, 10], ?_⟩
  exact (c9_array_headers.2 { cfgDefault with headersOpt := .given [[120], [121]] }
    { scan := .sof, field := [], row := [[49], [50]], rowBytes := 0, remSkip := 0,
      headers := none, queue := [], err := none }
    [[120], [121]] rfl rfl rfl (by decide)).2

/-! ### C10: hook ordering in the adapter -/

/-- C10. Hook ordering: when both callbacks are supplied and headers are
known (and pairwise distinct, each present in the row), the emitted
record is obtained by first rewriting every cell with `mapValues` —
invoked with the original header name and that header's index — and then
renaming columns with `mapHeaders`, dropping every column whose
`mapHeaders` result is null even though its value went through
`mapValues`. -/
theorem c10_hook_ordering (mv : String → Int → String → String)
    (mh : String → Nat → Option String) (hs : List String)
    (row : List (String × String))
    (hnd : hs.Nodup) (hcov : ∀ h ∈ hs, (jsGet row h).isSome = true) :
    processRow (some mv) (some mh) (some hs) row =
      hs.enum.filterMap (fun q =>
        (mh q.2 q.1).map (fun h2 => (h2, mv q.2 (q.1 : Int) ((jsGet row q.2).getD "")))) := by
  unfold processRow applyMapHeaders applyMapValues
  apply List.filterMap_congr
  intro q hq
  obtain ⟨i, h⟩ := q
  rw [List.mk_mem_enum_iff_getElem?] at hq
  have hi : i < hs.length := by
    by_contra hcon
    rw [List.getElem?_eq_none (by omega)] at hq
    exact Option.noConfusion hq
  have hhi : hs[i] = h := by
    rw [List.getElem?_eq_getElem hi] at hq
    exact Option.some.inj hq
  have hmem : h ∈ hs := by
    rw [← hhi]
    exact List.getElem_mem hi
  have hidx : jsIndexOf hs h = (i : Int) := by
    unfold jsIndexOf
    rw [if_pos hmem, ← hhi, List.indexOf_getElem hnd i hi]
  have hval : jsGet (row.map (fun p =>
        (p.1, mv p.1 (match some hs with | some hs => jsIndexOf hs p.1 | none => -1) p.2))) h
      = (jsGet row h).map (fun v => mv h (jsIndexOf hs h) v) := by
    exact jsGet_map row (fun k v => mv k (jsIndexOf hs k) v) h
  rcases hsome : jsGet row h with _ | v
  · have hfalse := hcov h hmem
    rw [hsome] at hfalse
    simp at hfalse
  · cases hmh : mh h i <;>
      simp [hval, hsome, hidx, hmh]

/-- C10 witness: two columns; values are uppercased with the original
names and indices, then the second column is renamed and the first
dropped. -/
theorem c10_hook_ordering_witness :
    processRow (some (fun h i v => String.append (String.append h (toString i)) v))
        (some (fun h i => if i = 0 then none else some (String.append h "2")))
        (some ["a", "b"]) [("a", "x"), ("b", "y")] =
      (["a", "b"].enum).filterMap (fun q =>
        ((fun h i => if i = 0 then none else some (String.append h "2")) q.2 q.1).map
          (fun h2 => (h2, (fun h i v => String.append (String.append h (toString i)) v) q.2
            ((q.1 : Nat) : Int) ((jsGet [("a", "x"), ("b", "y")] q.2).getD "")))) := by
  exact c10_hook_ordering (fun h i v => String.append (String.append h (toString i)) v)
    (fun h i => if i = 0 then none else some (String.append h "2"))
    ["a", "b"] [("a", "x"), ("b", "y")] (by decide) (by decide)

end FastCsv

namespace FastCsv

/-! ### Encoding front-end lemmas -/

lemma feedU8_err (c : Cfg) (s : CoreState) (b : Nat) (h : s.err.isSome = true) :
    feedU8 c s b = s := by
  unfold feedU8
  rw [if_pos h]

lemma feedU8s_err (c : Cfg) (s : CoreState) (bs : List Nat) (h : s.err.isSome = true) :
    feedU8s c s bs = s := by
  induction bs with
  | nil => rfl
  | cons b bs ih =>
      show feedU8s c (feedU8 c s b) bs = s
      rw [feedU8_err c s b h, ih]

lemma feedU8s_cons (c : Cfg) (s : CoreState) (b : Nat) (bs : List Nat) :
    feedU8s c s (b :: bs) = feedU8s c (feedU8 c s b) bs := rfl

lemma feedU8s_append (c : Cfg) (s : CoreState) (as bs : List Nat) :
    feedU8s c s (as ++ bs) = feedU8s c (feedU8s c s as) bs := by
  simp [feedU8s, List.foldl_append]

lemma stepByte_err (c : Cfg) (e : EncState) (s : CoreState) (b : Nat)
    (h : s.err.isSome = true) :
    stepByte c ⟨e, s⟩ b = ⟨e, s⟩ := by
  unfold stepByte
  rw [if_pos h]

lemma runBytes_err (c : Cfg) (e : EncState) (s : CoreState) (bs : List Nat)
    (h : s.err.isSome = true) :
    runBytes c ⟨e, s⟩ bs = ⟨e, s⟩ := by
  induction bs with
  | nil => rfl
  | cons b bs ih =>
      show runBytes c (stepByte c ⟨e, s⟩ b) bs = ⟨e, s⟩
      rw [stepByte_err c e s b h, ih]

lemma stepByte_u8 (c : Cfg) (e : EncState) (s : CoreState) (b : Nat)
    (hmode : e.mode = .utf8) :
    stepByte c ⟨e, s⟩ b = ⟨e, feedU8 c s b⟩ := by
  unfold stepByte
  by_cases herr : s.err.isSome = true
  · rw [if_pos herr, feedU8_err c s b herr]
  · rw [if_neg herr]
    simp only [hmode]

lemma runBytes_u8 (c : Cfg) (e : EncState) (s : CoreState) (bs : List Nat)
    (hmode : e.mode = .utf8) :
    runBytes c ⟨e, s⟩ bs = ⟨e, feedU8s c s bs⟩ := by
  induction bs generalizing s with
  | nil => rfl
  | cons b bs ih =>
      show runBytes c (stepByte c ⟨e, s⟩ b) bs = ⟨e, feedU8s c (feedU8 c s b) bs⟩
      rw [stepByte_u8 c e s b hmode, ih]

lemma flushResult_u8 (c : Cfg) (e : EncState) (s : CoreState) (hmode : e.mode = .utf8) :
    flushResult c ⟨e, s⟩ = resultOfCore c s := by
  unfold flushResult
  rw [flushEnc_u8 c e s hmode]

/-- Parsing a stream that does not open with a possible BOM byte is
plain UTF-8 passthrough. -/
lemma parse_u8_view (c : Cfg) (bs : List Nat) (h : noBomHead bs = true) :
    parseBytes c bs = resultOfCore c (feedU8s c (initCore c) bs) := by
  cases bs with
  | nil =>
      unfold parseBytes
      show flushResult c (initPS c) = _
      unfold flushResult flushEnc
      rfl
  | cons b bs =>
      simp only [noBomHead, decide_eq_true_eq] at h
      unfold parseBytes
      show flushResult c (runBytes c (stepByte c (initPS c) b) bs) = _
      obtain ⟨h1, h2, h3⟩ := h
      have hstep : stepByte c (initPS c) b
          = ⟨⟨.utf8, [], none, none⟩, feedU8 c (initCore c) b⟩ := by
        unfold stepByte initPS
        rw [if_neg (by simp [initCore])]
        dsimp only
        rw [if_neg (by simp [h1, h2, h3])]
      rw [hstep, runBytes_u8 c _ _ bs rfl, flushResult_u8 c _ _ rfl]
      rfl

end FastCsv

namespace FastCsv

/-! ### UTF-16 transcoding lemmas -/

lemma runBytes_u16le_one (c : Cfg) (bp : List Nat) (core : CoreState) (v : Nat)
    (hv : isScalar v = true) :
    runBytes c ⟨⟨.utf16le, bp, none, none⟩, core⟩ (u16leBytes v)
      = ⟨⟨.utf16le, bp, none, none⟩, feedU8s c core (utf8Enc v)⟩ := by
  simp only [isScalar, decide_eq_true_eq] at hv
  obtain ⟨hlt, hsur⟩ := hv
  by_cases herr : core.err.isSome = true
  · rw [runBytes_err c _ _ _ herr, feedU8s_err c _ _ herr]
  · by_cases hbmp : v < 65536
    · have hbytes : u16leBytes v = [v % 256, v / 256] := by simp [u16leBytes, hbmp]
      rw [hbytes]
      show stepByte c (stepByte c ⟨⟨.utf16le, bp, none, none⟩, core⟩ (v % 256)) (v / 256) = _
      have h1 : stepByte c ⟨⟨.utf16le, bp, none, none⟩, core⟩ (v % 256)
          = ⟨⟨.utf16le, bp, some (v % 256), none⟩, core⟩ := by
        unfold stepByte
        rw [if_neg herr]
      have h2 : stepByte c ⟨⟨.utf16le, bp, some (v % 256), none⟩, core⟩ (v / 256)
          = feedUnit c ⟨⟨.utf16le, bp, none, none⟩, core⟩ (v % 256 + 256 * (v / 256)) := by
        unfold stepByte
        rw [if_neg herr]
      rw [h1, h2, Nat.mod_add_div]
      unfold feedUnit
      rw [if_neg (by simp only [isHighSur, decide_eq_true_eq]; omega),
        if_neg (by simp only [isLowSur, decide_eq_true_eq]; omega)]
    · have hbytes : u16leBytes v =
          [(55296 + (v - 65536) / 1024) % 256, (55296 + (v - 65536) / 1024) / 256,
            (56320 + (v - 65536) % 1024) % 256, (56320 + (v - 65536) % 1024) / 256] := by
        simp [u16leBytes, hbmp]
      rw [hbytes]
      set hsu := 55296 + (v - 65536) / 1024 with hhs
      set lsu := 56320 + (v - 65536) % 1024 with hls
      have hsurange : 55296 ≤ hsu ∧ hsu < 56320 := by
        constructor
        · omega
        · rw [hhs]
          omega
      have lsurange : 56320 ≤ lsu ∧ lsu < 57344 := by
        constructor
        · omega
        · rw [hls]
          omega
      show stepByte c (stepByte c (stepByte c (stepByte c
          ⟨⟨.utf16le, bp, none, none⟩, core⟩ (hsu % 256)) (hsu / 256)) (lsu % 256)) (lsu / 256) = _
      have h1 : stepByte c ⟨⟨.utf16le, bp, none, none⟩, core⟩ (hsu % 256)
          = ⟨⟨.utf16le, bp, some (hsu % 256), none⟩, core⟩ := by
        unfold stepByte
        rw [if_neg herr]
      have h2 : stepByte c ⟨⟨.utf16le, bp, some (hsu % 256), none⟩, core⟩ (hsu / 256)
          = feedUnit c ⟨⟨.utf16le, bp, none, none⟩, core⟩ (hsu % 256 + 256 * (hsu / 256)) := by
        unfold stepByte
        rw [if_neg herr]
      have h3 : feedUnit c ⟨⟨.utf16le, bp, none, none⟩, core⟩ hsu
          = ⟨⟨.utf16le, bp, none, some hsu⟩, core⟩ := by
        unfold feedUnit
        rw [if_pos (by simp only [isHighSur, decide_eq_true_eq]; omega)]
      have h4 : stepByte c ⟨⟨.utf16le, bp, none, some hsu⟩, core⟩ (lsu % 256)
          = ⟨⟨.utf16le, bp, some (lsu % 256), some hsu⟩, core⟩ := by
        unfold stepByte
        rw [if_neg herr]
      have h5 : stepByte c ⟨⟨.utf16le, bp, some (lsu % 256), some hsu⟩, core⟩ (lsu / 256)
          = feedUnit c ⟨⟨.utf16le, bp, none, some hsu⟩, core⟩ (lsu % 256 + 256 * (lsu / 256)) := by
        unfold stepByte
        rw [if_neg herr]
      have h6 : feedUnit c ⟨⟨.utf16le, bp, none, some hsu⟩, core⟩ lsu
          = ⟨⟨.utf16le, bp, none, none⟩,
              feedU8s c core (utf8Enc (65536 + (hsu - 55296) * 1024 + (lsu - 56320)))⟩ := by
        unfold feedUnit
        rw [if_neg (by simp only [isHighSur, decide_eq_true_eq]; omega),
          if_pos (by simp only [isLowSur, decide_eq_true_eq]; omega)]
      have harg : 65536 + (hsu - 55296) * 1024 + (lsu - 56320) = v := by
        rw [hhs, hls]
        omega
      rw [h1, h2, Nat.mod_add_div, h3, h4, h5, Nat.mod_add_div, h6, harg]

lemma runBytes_u16be_one (c : Cfg) (bp : List Nat) (core : CoreState) (v : Nat)
    (hv : isScalar v = true) :
    runBytes c ⟨⟨.utf16be, bp, none, none⟩, core⟩ (u16beBytes v)
      = ⟨⟨.utf16be, bp, none, none⟩, feedU8s c core (utf8Enc v)⟩ := by
  simp only [isScalar, decide_eq_true_eq] at hv
  obtain ⟨hlt, hsur⟩ := hv
  by_cases herr : core.err.isSome = true
  · rw [runBytes_err c _ _ _ herr, feedU8s_err c _ _ herr]
  · by_cases hbmp : v < 65536
    · have hbytes : u16beBytes v = [v / 256, v % 256] := by simp [u16beBytes, hbmp]
      rw [hbytes]
      show stepByte c (stepByte c ⟨⟨.utf16be, bp, none, none⟩, core⟩ (v / 256)) (v % 256) = _
      have h1 : stepByte c ⟨⟨.utf16be, bp, none, none⟩, core⟩ (v / 256)
          = ⟨⟨.utf16be, bp, some (v / 256), none⟩, core⟩ := by
        unfold stepByte
        rw [if_neg herr]
      have h2 : stepByte c ⟨⟨.utf16be, bp, some (v / 256), none⟩, core⟩ (v % 256)
          = feedUnit c ⟨⟨.utf16be, bp, none, none⟩, core⟩ (256 * (v / 256) + v % 256) := by
        unfold stepByte
        rw [if_neg herr]
      rw [h1, h2, Nat.div_add_mod]
      unfold feedUnit
      rw [if_neg (by simp only [isHighSur, decide_eq_true_eq]; omega),
        if_neg (by simp only [isLowSur, decide_eq_true_eq]; omega)]
    · have hbytes : u16beBytes v =
          [(55296 + (v - 65536) / 1024) / 256, (55296 + (v - 65536) / 1024) % 256,
            (56320 + (v - 65536) % 1024) / 256, (56320 + (v - 65536) % 1024) % 256] := by
        simp [u16beBytes, hbmp]
      rw [hbytes]
      set hsu := 55296 + (v - 65536) / 1024 with hhs
      set lsu := 56320 + (v - 65536) % 1024 with hls
      have hsurange : 55296 ≤ hsu ∧ hsu < 56320 := by
        constructor
        · omega
        · rw [hhs]
          omega
      have lsurange : 56320 ≤ lsu ∧ lsu < 57344 := by
        constructor
        · omega
        · rw [hls]
          omega
      show stepByte c (stepByte c (stepByte c (stepByte c
          ⟨⟨.utf16be, bp, none, none⟩, core⟩ (hsu / 256)) (hsu % 256)) (lsu / 256)) (lsu % 256) = _
      have h1 : stepByte c ⟨⟨.utf16be, bp, none, none⟩, core⟩ (hsu / 256)
          = ⟨⟨.utf16be, bp, some (hsu / 256), none⟩, core⟩ := by
        unfold stepByte
        rw [if_neg herr]
      have h2 : stepByte c ⟨⟨.utf16be, bp, some (hsu / 256), none⟩, core⟩ (hsu % 256)
          = feedUnit c ⟨⟨.utf16be, bp, none, none⟩, core⟩ (256 * (hsu / 256) + hsu % 256) := by
        unfold stepByte
        rw [if_neg herr]
      have h3 : feedUnit c ⟨⟨.utf16be, bp, none, none⟩, core⟩ hsu
          = ⟨⟨.utf16be, bp, none, some hsu⟩, core⟩ := by
        unfold feedUnit
        rw [if_pos (by simp only [isHighSur, decide_eq_true_eq]; omega)]
      have h4 : stepByte c ⟨⟨.utf16be, bp, none, some hsu⟩, core⟩ (lsu / 256)
          = ⟨⟨.utf16be, bp, some (lsu / 256), some hsu⟩, core⟩ := by
        unfold stepByte
        rw [if_neg herr]
      have h5 : stepByte c ⟨⟨.utf16be, bp, some (lsu / 256), some hsu⟩, core⟩ (lsu % 256)
          = feedUnit c ⟨⟨.utf16be, bp, none, some hsu⟩, core⟩ (256 * (lsu / 256) + lsu % 256) := by
        unfold stepByte
        rw [if_neg herr]
      have h6 : feedUnit c ⟨⟨.utf16be, bp, none, some hsu⟩, core⟩ lsu
          = ⟨⟨.utf16be, bp, none, none⟩,
              feedU8s c core (utf8Enc (65536 + (hsu - 55296) * 1024 + (lsu - 56320)))⟩ := by
        unfold feedUnit
        rw [if_neg (by simp only [isHighSur, decide_eq_true_eq]; omega),
          if_pos (by simp only [isLowSur, decide_eq_true_eq]; omega)]
      have harg : 65536 + (hsu - 55296) * 1024 + (lsu - 56320) = v := by
        rw [hhs, hls]
        omega
      rw [h1, h2, Nat.div_add_mod, h3, h4, h5, Nat.div_add_mod, h6, harg]

lemma runBytes_u16le_all (c : Cfg) (bp : List Nat) (core : CoreState) (vs : List Nat)
    (hall : vs.all isScalar = true) :
    runBytes c ⟨⟨.utf16le, bp, none, none⟩, core⟩ (utf16leAll vs)
      = ⟨⟨.utf16le, bp, none, none⟩, feedU8s c core (utf8EncAll vs)⟩ := by
  induction vs generalizing core with
  | nil => rfl
  | cons v vs ih =>
      simp only [List.all_cons, Bool.and_eq_true] at hall
      rw [show utf16leAll (v :: vs) = u16leBytes v ++ utf16leAll vs from by simp [utf16leAll],
        runBytes_append, runBytes_u16le_one c bp core v hall.1, ih _ hall.2,
        show utf8EncAll (v :: vs) = utf8Enc v ++ utf8EncAll vs from by simp [utf8EncAll],
        feedU8s_append]

lemma runBytes_u16be_all (c : Cfg) (bp : List Nat) (core : CoreState) (vs : List Nat)
    (hall : vs.all isScalar = true) :
    runBytes c ⟨⟨.utf16be, bp, none, none⟩, core⟩ (utf16beAll vs)
      = ⟨⟨.utf16be, bp, none, none⟩, feedU8s c core (utf8EncAll vs)⟩ := by
  induction vs generalizing core with
  | nil => rfl
  | cons v vs ih =>
      simp only [List.all_cons, Bool.and_eq_true] at hall
      rw [show utf16beAll (v :: vs) = u16beBytes v ++ utf16beAll vs from by simp [utf16beAll],
        runBytes_append, runBytes_u16be_one c bp core v hall.1, ih _ hall.2,
        show utf8EncAll (v :: vs) = utf8Enc v ++ utf8EncAll vs from by simp [utf8EncAll],
        feedU8s_append]

lemma flushResult_u16_clean (c : Cfg) (m : EncMode) (bp : List Nat) (core : CoreState)
    (hm : m = .utf16le ∨ m = .utf16be) :
    flushResult c ⟨⟨m, bp, none, none⟩, core⟩ = resultOfCore c core := by
  unfold flushResult flushEnc
  rcases hm with rfl | rfl <;> (split <;> rfl)

end FastCsv

namespace FastCsv

lemma runBytes_bom16le (c : Cfg) (bs : List Nat) :
    runBytes c (initPS c) (255 :: 254 :: bs)
      = runBytes c ⟨⟨.utf16le, [], none, none⟩, initCore c⟩ bs := by
  show runBytes c (stepByte c (stepByte c (initPS c) 255) 254) bs = _
  have h1 : stepByte c (initPS c) 255 = ⟨⟨.unknown, [255], none, none⟩, initCore c⟩ := by
    unfold stepByte initPS
    rw [if_neg (by simp [initCore])]
    dsimp only
    rw [if_pos (Or.inl rfl)]
  have h2 : stepByte c ⟨⟨.unknown, [255], none, none⟩, initCore c⟩ 254
      = ⟨⟨.utf16le, [], none, none⟩, initCore c⟩ := by
    unfold stepByte
    rw [if_neg (by simp [initCore])]
    dsimp only
    rw [if_pos ⟨rfl, rfl⟩]
  rw [h1, h2]

lemma runBytes_bom16be (c : Cfg) (bs : List Nat) :
    runBytes c (initPS c) (254 :: 255 :: bs)
      = runBytes c ⟨⟨.utf16be, [], none, none⟩, initCore c⟩ bs := by
  show runBytes c (stepByte c (stepByte c (initPS c) 254) 255) bs = _
  have h1 : stepByte c (initPS c) 254 = ⟨⟨.unknown, [254], none, none⟩, initCore c⟩ := by
    unfold stepByte initPS
    rw [if_neg (by simp [initCore])]
    dsimp only
    rw [if_pos (Or.inr (Or.inl rfl))]
  have h2 : stepByte c ⟨⟨.unknown, [254], none, none⟩, initCore c⟩ 255
      = ⟨⟨.utf16be, [], none, none⟩, initCore c⟩ := by
    unfold stepByte
    rw [if_neg (by simp [initCore])]
    dsimp only
    rw [if_neg (by simp), if_pos ⟨rfl, rfl⟩]
  rw [h1, h2]

lemma runBytes_bomU8 (c : Cfg) (bs : List Nat) :
    runBytes c (initPS c) (239 :: 187 :: 191 :: bs)
      = runBytes c ⟨⟨.utf8, [], none, none⟩, initCore c⟩ bs := by
  show runBytes c (stepByte c (stepByte c (stepByte c (initPS c) 239) 187) 191) bs = _
  have h1 : stepByte c (initPS c) 239 = ⟨⟨.unknown, [239], none, none⟩, initCore c⟩ := by
    unfold stepByte initPS
    rw [if_neg (by simp [initCore])]
    dsimp only
    rw [if_pos (Or.inr (Or.inr rfl))]
  have h2 : stepByte c ⟨⟨.unknown, [239], none, none⟩, initCore c⟩ 187
      = ⟨⟨.unknown, [239, 187], none, none⟩, initCore c⟩ := by
    unfold stepByte
    rw [if_neg (by simp [initCore])]
    dsimp only
    rw [if_neg (by simp), if_neg (by simp), if_pos ⟨rfl, rfl⟩]
  have h3 : stepByte c ⟨⟨.unknown, [239, 187], none, none⟩, initCore c⟩ 191
      = ⟨⟨.utf8, [], none, none⟩, initCore c⟩ := by
    unfold stepByte
    rw [if_neg (by simp [initCore])]
    dsimp only
    rw [if_pos rfl]
  rw [h1, h2, h3]

/-! ### C5: BOM detection and stripping -/

/-- C5. BOM handling: a leading EF BB BF is consumed and parsing proceeds
exactly as for the same stream without those three bytes (so no BOM byte
reaches any header or field); a leading FF FE (resp. FE FF) selects
UTF-16 LE (resp. BE), is consumed, and the byte pairs are transcoded to
UTF-8, so parsing a UTF-16-encoded scalar sequence yields exactly the
records of the equivalent UTF-8 input. -/
theorem c5_bom_handling :
    (∀ (c : Cfg) (bs : List Nat), noBomHead bs = true →
        parseBytes c (239 :: 187 :: 191 :: bs) = parseBytes c bs) ∧
    (∀ (c : Cfg) (vs : List Nat), vs.all isScalar = true →
        noBomHead (utf8EncAll vs) = true →
        parseBytes c (255 :: 254 :: utf16leAll vs) = parseBytes c (utf8EncAll vs) ∧
        parseBytes c (254 :: 255 :: utf16beAll vs) = parseBytes c (utf8EncAll vs)) := by
  constructor
  · intro c bs h
    rw [parse_u8_view c bs h]
    unfold parseBytes
    rw [runBytes_bomU8, runBytes_u8 c _ _ bs rfl, flushResult_u8 c _ _ rfl]
  · intro c vs hall hhead
    constructor
    · rw [parse_u8_view c _ hhead]
      unfold parseBytes
      rw [runBytes_bom16le, runBytes_u16le_all c _ _ vs hall,
        flushResult_u16_clean c _ _ _ (Or.inl rfl)]
    · rw [parse_u8_view c _ hhead]
      unfold parseBytes
      rw [runBytes_bom16be, runBytes_u16be_all c _ _ vs hall,
        flushResult_u16_clean c _ _ _ (Or.inr rfl)]

/-- C5 witness: UTF-8 BOM before `h\n1\n`, and the UTF-16 encodings of
`a,b\n1,ʤ\n` (with U+02A4) parse like their UTF-8 counterparts. -/
theorem c5_bom_handling_witness :
    parseBytes cfgDefault (239 :: 187 :: 191 :: [104, 10, 49, 10])
      = parseBytes cfgDefault [104, 10, 49, 10] ∧
    parseBytes cfgDefault (255 :: 254 :: utf16leAll [97, 44, 98, 10, 49, 44, 676, 10])
      = parseBytes cfgDefault (utf8EncAll [97, 44, 98, 10, 49, 44, 676, 10]) := by
  refine ⟨c5_bom_handling.1 cfgDefault [104, 10, 49, 10] (by decide), ?_⟩
  exact (c5_bom_handling.2 cfgDefault [97, 44, 98, 10, 49, 44, 676, 10]
    (by decide) (by decide)).1

end FastCsv

namespace FastCsv

/-! ### Skip-lines lemmas -/

lemma feedU8s_skipLines (c : Cfg) (j : Nat) :
    feedU8s { c with skipLines := j } = feedU8s c := by
  obtain ⟨s1, q1, e1, n1, h1, l1, m1, r1, t1⟩ := c
  rfl

lemma resultOfCore_skipLines (c : Cfg) (j : Nat) :
    resultOfCore { c with skipLines := j } = resultOfCore c := by
  obtain ⟨s1, q1, e1, n1, h1, l1, m1, r1, t1⟩ := c
  rfl

lemma joinLines_skipLines (c : Cfg) (j : Nat) :
    joinLines { c with skipLines := j } = joinLines c := by
  obtain ⟨s1, q1, e1, n1, h1, l1, m1, r1, t1⟩ := c
  rfl

end FastCsv

namespace FastCsv

/-! ### Row-structure simulation lemmas

A line is a single complete scanner row exactly when running the scanner
on it from `rowStart` closes no row (observable: headers stay `none`,
since every `closeRow` at `remSkip = 0` installs headers) and does not
end inside a quoted field.  For such a line, the scanner moves in
lockstep on any other row-start state: only `scan`, `field` and `row`
evolve, and they evolve identically. -/

lemma isCommentStart_none (c : Cfg) (s : CoreState) (b : Nat) (hcm : c.comment = none) :
    isCommentStart c s b = false := by
  unfold isCommentStart
  rw [hcm]

lemma closeRow_headers_isSome (c : Cfg) (s : CoreState)
    (hrs : s.remSkip = 0) (hh : s.headers = none) :
    (closeRow c s).headers.isSome = true := by
  unfold closeRow
  rw [if_neg (by omega)]
  rw [hh]
  cases c.headersOpt <;> simp <;> split_ifs <;> rfl

lemma closeRow_headers_mono (c : Cfg) (s : CoreState) (h : s.headers.isSome = true) :
    (closeRow c s).headers.isSome = true := by
  rcases hh : s.headers with _ | hs
  · rw [hh] at h
    simp at h
  · simp only [closeRow, hh]
    split_ifs <;> simp

lemma scanStep_headers_mono (c : Cfg) (s : CoreState) (b : Nat)
    (h : s.headers.isSome = true) :
    (scanStep c s b).headers.isSome = true := by
  obtain ⟨sc, f, r, rb, rs, hd, q, e⟩ := s
  cases sc <;>
    first
      | (rename_i p
         cases p <;>
           simp only [scanStep, scanCore, prevState] <;>
           split_ifs <;>
           first
             | simpa using h
             | (apply closeRow_headers_mono; simpa [closeField] using h))
      | (simp only [scanStep, scanCore] <;>
         split_ifs <;>
         first
           | simpa using h
           | (apply closeRow_headers_mono; simpa [closeField] using h))

lemma scanRun_cons (c : Cfg) (s : CoreState) (b : Nat) (bs : List Nat) :
    scanRun c s (b :: bs) = scanRun c (scanStep c s b) bs := rfl

lemma scanRun_headers_mono (c : Cfg) (bs : List Nat) (s : CoreState)
    (h : s.headers.isSome = true) :
    (scanRun c s bs).headers.isSome = true := by
  induction bs generalizing s with
  | nil => exact h
  | cons b bs ih => exact ih _ (scanStep_headers_mono c s b h)

lemma scanRun_headers_none_step (c : Cfg) (s : CoreState) (b : Nat) (bs : List Nat)
    (h : (scanRun c s (b :: bs)).headers = none) :
    (scanStep c s b).headers = none := by
  rcases hh : (scanStep c s b).headers with _ | hs
  · rfl
  · have hsome : (scanStep c s b).headers.isSome = true := by rw [hh]; rfl
    have := scanRun_headers_mono c bs _ hsome
    rw [scanRun_cons] at h
    rw [h] at this
    simp at this

end FastCsv

namespace FastCsv

/-- One scanner byte in lockstep: if the step from the row-start probe
state does not close a row (its headers stay `none`), then the same byte
from any other err-free state with the same scan/field/row evolves those
three components identically and leaves everything else untouched.
Stated for the base states of `scanCore`. -/
lemma scanCore_sim (c : Cfg) (hcm : c.comment = none)
    (sc : ScanState) (f : List Nat) (r : List (List Nat)) (b : Nat)
    (rb2 rs2 : Nat) (hd2 : Option (List (List Nat))) (q2 : List Rcd)
    (hsc : sc ≠ .commentLine)
    (hnc : (scanCore c ⟨sc, f, r, 0, 0, none, [], none⟩ b).headers = none) :
    ∃ sc2 f2 r2,
      scanCore c ⟨sc, f, r, 0, 0, none, [], none⟩ b = ⟨sc2, f2, r2, 0, 0, none, [], none⟩ ∧
      scanCore c ⟨sc, f, r, rb2, rs2, hd2, q2, none⟩ b = ⟨sc2, f2, r2, rb2, rs2, hd2, q2, none⟩ ∧
      sc2 ≠ .commentLine := by
  cases sc with
  | sof =>
      by_cases hq : b = c.quote
      · refine ⟨.inQF, f, r, ?_, ?_, by simp⟩ <;>
          (unfold scanCore; dsimp only; rw [if_pos hq])
      · by_cases hsep : b = c.separator
        · refine ⟨.sof, [], r ++ [f], ?_, ?_, by simp⟩ <;>
            (unfold scanCore; dsimp only; rw [if_neg hq, if_pos hsep]; rfl)
        · by_cases hnl : b = c.newline
          · exfalso
            have hred : scanCore c ⟨.sof, f, r, 0, 0, none, [], none⟩ b
                = closeRow c (closeField ⟨.sof, f, r, 0, 0, none, [], none⟩) := by
              unfold scanCore
              dsimp only
              rw [if_neg hq, if_neg hsep, if_pos hnl]
            have hsome := closeRow_headers_isSome c
              (closeField ⟨.sof, f, r, 0, 0, none, [], none⟩) rfl rfl
            rw [hred] at hnc
            rw [hnc] at hsome
            simp at hsome
          · by_cases h13 : b = 13
            · refine ⟨.afterCR .csof, f, r, ?_, ?_, by simp⟩ <;>
                (unfold scanCore; dsimp only; rw [if_neg hq, if_neg hsep, if_neg hnl, if_pos h13])
            · refine ⟨.inUF, f ++ [b], r, ?_, ?_, by simp⟩ <;>
                (unfold scanCore
                 dsimp only
                 rw [if_neg hq, if_neg hsep, if_neg hnl, if_neg h13,
                   if_neg (by rw [isCommentStart_none c _ b hcm]; simp)])
  | inUF =>
      by_cases hsep : b = c.separator
      · refine ⟨.sof, [], r ++ [f], ?_, ?_, by simp⟩ <;>
          (unfold scanCore; dsimp only; rw [if_pos hsep]; rfl)
      · by_cases hnl : b = c.newline
        · exfalso
          have hred : scanCore c ⟨.inUF, f, r, 0, 0, none, [], none⟩ b
              = closeRow c (closeField ⟨.inUF, f, r, 0, 0, none, [], none⟩) := by
            unfold scanCore
            dsimp only
            rw [if_neg hsep, if_pos hnl]
          have hsome := closeRow_headers_isSome c
            (closeField ⟨.inUF, f, r, 0, 0, none, [], none⟩) rfl rfl
          rw [hred] at hnc
          rw [hnc] at hsome
          simp at hsome
        · by_cases h13 : b = 13
          · refine ⟨.afterCR .cinUF, f, r, ?_, ?_, by simp⟩ <;>
              (unfold scanCore; dsimp only; rw [if_neg hsep, if_neg hnl, if_pos h13])
          · refine ⟨.inUF, f ++ [b], r, ?_, ?_, by simp⟩ <;>
              (unfold scanCore; dsimp only; rw [if_neg hsep, if_neg hnl, if_neg h13])
  | inQF =>
      by_cases hq : b = c.quote
      · by_cases hesc : c.escape = c.quote
        · refine ⟨.quotePend, f, r, ?_, ?_, by simp⟩ <;>
            (unfold scanCore; dsimp only; rw [if_pos hq, if_pos hesc])
        · refine ⟨.acq, f, r, ?_, ?_, by simp⟩ <;>
            (unfold scanCore; dsimp only; rw [if_pos hq, if_neg hesc])
      · by_cases hbe : b = c.escape
        · refine ⟨.escPend, f, r, ?_, ?_, by simp⟩ <;>
            (unfold scanCore; dsimp only; rw [if_neg hq, if_pos hbe])
        · refine ⟨.inQF, f ++ [b], r, ?_, ?_, by simp⟩ <;>
            (unfold scanCore; dsimp only; rw [if_neg hq, if_neg hbe])
  | acq =>
      by_cases hq : b = c.quote
      · refine ⟨.acq, f ++ [b], r, ?_, ?_, by simp⟩ <;>
          (unfold scanCore; dsimp only; rw [if_pos hq])
      · by_cases hsep : b = c.separator
        · refine ⟨.sof, [], r ++ [f], ?_, ?_, by simp⟩ <;>
            (unfold scanCore; dsimp only; rw [if_neg hq, if_pos hsep]; rfl)
        · by_cases hnl : b = c.newline
          · exfalso
            have hred : scanCore c ⟨.acq, f, r, 0, 0, none, [], none⟩ b
                = closeRow c (closeField ⟨.acq, f, r, 0, 0, none, [], none⟩) := by
              unfold scanCore
              dsimp only
              rw [if_neg hq, if_neg hsep, if_pos hnl]
            have hsome := closeRow_headers_isSome c
              (closeField ⟨.acq, f, r, 0, 0, none, [], none⟩) rfl rfl
            rw [hred] at hnc
            rw [hnc] at hsome
            simp at hsome
          · by_cases h13 : b = 13
            · refine ⟨.afterCR .cacq, f, r, ?_, ?_, by simp⟩ <;>
                (unfold scanCore; dsimp only; rw [if_neg hq, if_neg hsep, if_neg hnl, if_pos h13])
            · refine ⟨.acq, f ++ [b], r, ?_, ?_, by simp⟩ <;>
                (unfold scanCore; dsimp only; rw [if_neg hq, if_neg hsep, if_neg hnl, if_neg h13])
  | quotePend => exact ⟨.quotePend, f, r, rfl, rfl, by simp⟩
  | escPend => exact ⟨.escPend, f, r, rfl, rfl, by simp⟩
  | afterCR p => exact ⟨.afterCR p, f, r, rfl, rfl, by simp⟩
  | commentLine => exact absurd rfl hsc

/-- The lockstep property of `scanCore_sim`, lifted to the full scanner
step including the pending and carriage-return states. -/
lemma scanStep_sim (c : Cfg) (hcm : c.comment = none)
    (sc : ScanState) (f : List Nat) (r : List (List Nat)) (b : Nat)
    (rb2 rs2 : Nat) (hd2 : Option (List (List Nat))) (q2 : List Rcd)
    (hsc : sc ≠ .commentLine)
    (hnc : (scanStep c ⟨sc, f, r, 0, 0, none, [], none⟩ b).headers = none) :
    ∃ sc2 f2 r2,
      scanStep c ⟨sc, f, r, 0, 0, none, [], none⟩ b = ⟨sc2, f2, r2, 0, 0, none, [], none⟩ ∧
      scanStep c ⟨sc, f, r, rb2, rs2, hd2, q2, none⟩ b = ⟨sc2, f2, r2, rb2, rs2, hd2, q2, none⟩ ∧
      sc2 ≠ .commentLine := by
  cases sc with
  | quotePend =>
      by_cases hq : b = c.quote
      · refine ⟨.inQF, f ++ [b], r, ?_, ?_, by simp⟩ <;>
          (unfold scanStep; dsimp only; rw [if_pos hq])
      · have hredP : scanStep c ⟨.quotePend, f, r, 0, 0, none, [], none⟩ b
            = scanCore c ⟨.acq, f, r, 0, 0, none, [], none⟩ b := by
          unfold scanStep
          dsimp only
          rw [if_neg hq]
        have hredA : scanStep c ⟨.quotePend, f, r, rb2, rs2, hd2, q2, none⟩ b
            = scanCore c ⟨.acq, f, r, rb2, rs2, hd2, q2, none⟩ b := by
          unfold scanStep
          dsimp only
          rw [if_neg hq]
        rw [hredP] at hnc
        obtain ⟨sc2, f2, r2, h1, h2, h3⟩ :=
          scanCore_sim c hcm .acq f r b rb2 rs2 hd2 q2 (by simp) hnc
        exact ⟨sc2, f2, r2, by rw [hredP, h1], by rw [hredA, h2], h3⟩
  | escPend =>
      by_cases hq : b = c.quote
      · refine ⟨.inQF, f ++ [b], r, ?_, ?_, by simp⟩ <;>
          (unfold scanStep; dsimp only; rw [if_pos hq])
      · have hredP : scanStep c ⟨.escPend, f, r, 0, 0, none, [], none⟩ b
            = scanCore c ⟨.inQF, f ++ [c.escape], r, 0, 0, none, [], none⟩ b := by
          unfold scanStep
          dsimp only
          rw [if_neg hq]
        have hredA : scanStep c ⟨.escPend, f, r, rb2, rs2, hd2, q2, none⟩ b
            = scanCore c ⟨.inQF, f ++ [c.escape], r, rb2, rs2, hd2, q2, none⟩ b := by
          unfold scanStep
          dsimp only
          rw [if_neg hq]
        rw [hredP] at hnc
        obtain ⟨sc2, f2, r2, h1, h2, h3⟩ :=
          scanCore_sim c hcm .inQF (f ++ [c.escape]) r b rb2 rs2 hd2 q2 (by simp) hnc
        exact ⟨sc2, f2, r2, by rw [hredP, h1], by rw [hredA, h2], h3⟩
  | afterCR p =>
      by_cases h13 : b = 13
      · refine ⟨.afterCR p, f, r, ?_, ?_, by simp⟩ <;>
          (unfold scanStep; dsimp only; rw [if_pos h13])
      · have hredP : scanStep c ⟨.afterCR p, f, r, 0, 0, none, [], none⟩ b
            = scanCore c ⟨prevState p, f, r, 0, 0, none, [], none⟩ b := by
          unfold scanStep
          dsimp only
          rw [if_neg h13]
        have hredA : scanStep c ⟨.afterCR p, f, r, rb2, rs2, hd2, q2, none⟩ b
            = scanCore c ⟨prevState p, f, r, rb2, rs2, hd2, q2, none⟩ b := by
          unfold scanStep
          dsimp only
          rw [if_neg h13]
        rw [hredP] at hnc
        obtain ⟨sc2, f2, r2, h1, h2, h3⟩ :=
          scanCore_sim c hcm (prevState p) f r b rb2 rs2 hd2 q2
            (by cases p <;> simp [prevState]) hnc
        exact ⟨sc2, f2, r2, by rw [hredP, h1], by rw [hredA, h2], h3⟩
  | commentLine => exact absurd rfl hsc
  | sof => exact scanCore_sim c hcm .sof f r b rb2 rs2 hd2 q2 (by simp) hnc
  | inUF => exact scanCore_sim c hcm .inUF f r b rb2 rs2 hd2 q2 (by simp) hnc
  | inQF => exact scanCore_sim c hcm .inQF f r b rb2 rs2 hd2 q2 (by simp) hnc
  | acq => exact scanCore_sim c hcm .acq f r b rb2 rs2 hd2 q2 (by simp) hnc

end FastCsv

namespace FastCsv

/-- Running a byte sequence that closes no row (probed from `rowStart`)
against any row-start scanner state with matching scan/field/row mirrors
the probe exactly, with the row byte count advancing by the length. -/
lemma feedSim (c : Cfg) (hcm : c.comment = none) (bs : List Nat) :
    ∀ (sc : ScanState) (f : List Nat) (r : List (List Nat)) (rb2 rs2 : Nat)
      (hd2 : Option (List (List Nat))) (q2 : List Rcd),
      sc ≠ .commentLine →
      (scanRun c ⟨sc, f, r, 0, 0, none, [], none⟩ bs).headers = none →
      rb2 + bs.length ≤ c.maxRowBytes →
      ∃ sc2 f2 r2,
        scanRun c ⟨sc, f, r, 0, 0, none, [], none⟩ bs = ⟨sc2, f2, r2, 0, 0, none, [], none⟩ ∧
        feedU8s c ⟨sc, f, r, rb2, rs2, hd2, q2, none⟩ bs
          = ⟨sc2, f2, r2, rb2 + bs.length, rs2, hd2, q2, none⟩ ∧
        sc2 ≠ .commentLine := by
  induction bs with
  | nil =>
      intro sc f r rb2 rs2 hd2 q2 hsc hnone hfit
      exact ⟨sc, f, r, rfl, by simp [feedU8s], hsc⟩
  | cons b bs ih =>
      intro sc f r rb2 rs2 hd2 q2 hsc hnone hfit
      have hstep_none : (scanStep c ⟨sc, f, r, 0, 0, none, [], none⟩ b).headers = none :=
        scanRun_headers_none_step c _ b bs hnone
      obtain ⟨sc1, f1, r1, hP, hA, hsc1⟩ :=
        scanStep_sim c hcm sc f r b (rb2 + 1) rs2 hd2 q2 hsc hstep_none
      have hfeed : feedU8 c ⟨sc, f, r, rb2, rs2, hd2, q2, none⟩ b
          = ⟨sc1, f1, r1, rb2 + 1, rs2, hd2, q2, none⟩ := by
        unfold feedU8
        rw [if_neg (by simp),
          if_neg (by dsimp only; simp only [List.length_cons] at hfit; omega)]
        exact hA
      have hnone2 : (scanRun c ⟨sc1, f1, r1, 0, 0, none, [], none⟩ bs).headers = none := by
        rw [scanRun_cons, hP] at hnone
        exact hnone
      obtain ⟨sc2, f2, r2, hP2, hA2, hsc2⟩ :=
        ih sc1 f1 r1 (rb2 + 1) rs2 hd2 q2 hsc1 hnone2
          (by simp only [List.length_cons] at hfit; omega)
      have harith : rb2 + 1 + bs.length = rb2 + (b :: bs).length := by
        simp only [List.length_cons]
        omega
      rw [harith] at hA2
      refine ⟨sc2, f2, r2, ?_, ?_, hsc2⟩
      · rw [scanRun_cons, hP, hP2]
      · rw [feedU8s_cons, hfeed, hA2]

/-- A line that forms a single complete scanner row (closes no row, does
not end inside a quote), followed by the newline byte, fed to a parser
that still has rows to skip: the whole row is discarded and only the
skip counter changes. -/
lemma feedLine_skip (c : Cfg) (L : List Nat) (n : Nat) (hd : Option (List (List Nat)))
    (q : List Rcd)
    (hcm : c.comment = none) (hqn : c.quote ≠ c.newline) (hsn : c.separator ≠ c.newline)
    (hn13 : c.newline ≠ 13)
    (hnc : (scanRun c rowStart L).headers = none)
    (hok : scanEndOk (scanRun c rowStart L).scan = true)
    (hfit : L.length + 1 ≤ c.maxRowBytes) :
    feedU8s c ⟨.sof, [], [], 0, n + 1, hd, q, none⟩ (L ++ [c.newline])
      = ⟨.sof, [], [], 0, n, hd, q, none⟩ := by
  rw [feedU8s_append]
  obtain ⟨sc2, f2, r2, hP, hA, hsc2⟩ :=
    feedSim c hcm L .sof [] [] 0 (n + 1) hd q (by simp) hnc (by omega)
  rw [hA]
  rw [show scanRun c rowStart L = scanRun c ⟨.sof, [], [], 0, 0, none, [], none⟩ L from rfl,
    hP] at hok
  show feedU8 c ⟨sc2, f2, r2, 0 + L.length, n + 1, hd, q, none⟩ c.newline = _
  unfold feedU8
  rw [if_neg (by simp), if_neg (by dsimp only; omega)]
  have hclose : ∀ f3 r3,
      closeRow c (closeField ⟨ScanState.sof, f3, r3, 0 + L.length + 1, n + 1, hd, q, none⟩)
        = ⟨.sof, [], [], 0, n, hd, q, none⟩ := by
    intro f3 r3
    unfold closeRow closeField
    dsimp only
    rw [if_pos (by omega)]
    simp
  cases sc2 with
  | sof =>
      unfold scanStep scanCore
      dsimp only
      rw [if_neg (fun hc => hqn hc.symm), if_neg (fun hc => hsn hc.symm), if_pos rfl]
      exact hclose f2 r2
  | inUF =>
      unfold scanStep scanCore
      dsimp only
      rw [if_neg (fun hc => hsn hc.symm), if_pos rfl]
      exact hclose f2 r2
  | acq =>
      unfold scanStep scanCore
      dsimp only
      rw [if_neg (fun hc => hqn hc.symm), if_neg (fun hc => hsn hc.symm), if_pos rfl]
      exact hclose f2 r2
  | quotePend =>
      unfold scanStep
      dsimp only
      rw [if_neg (fun hc => hqn hc.symm)]
      unfold scanCore
      dsimp only
      rw [if_neg (fun hc => hqn hc.symm), if_neg (fun hc => hsn hc.symm), if_pos rfl]
      exact hclose f2 r2
  | afterCR p =>
      unfold scanStep
      dsimp only
      rw [if_neg hn13]
      cases p with
      | csof =>
          unfold scanCore prevState
          dsimp only
          rw [if_neg (fun hc => hqn hc.symm), if_neg (fun hc => hsn hc.symm), if_pos rfl]
          exact hclose f2 r2
      | cinUF =>
          unfold scanCore prevState
          dsimp only
          rw [if_neg (fun hc => hsn hc.symm), if_pos rfl]
          exact hclose f2 r2
      | cacq =>
          unfold scanCore prevState
          dsimp only
          rw [if_neg (fun hc => hqn hc.symm), if_neg (fun hc => hsn hc.symm), if_pos rfl]
          exact hclose f2 r2
  | inQF => simp [scanEndOk] at hok
  | escPend => simp [scanEndOk] at hok
  | commentLine => simp [scanEndOk] at hok

end FastCsv

namespace FastCsv

/-- Feeding any sequence of single-complete-row lines to a parser with at
least that many rows left to skip discards them all. -/
lemma skipPhase (c : Cfg) (ls : List (List Nat)) (m : Nat) (hd : Option (List (List Nat)))
    (q : List Rcd)
    (hcm : c.comment = none) (hqn : c.quote ≠ c.newline) (hsn : c.separator ≠ c.newline)
    (hn13 : c.newline ≠ 13) :
    (∀ L ∈ ls, (scanRun c rowStart L).headers = none ∧
      scanEndOk (scanRun c rowStart L).scan = true) →
    (∀ L ∈ ls, L.length + 1 ≤ c.maxRowBytes) →
    ls.length ≤ m →
    feedU8s c ⟨.sof, [], [], 0, m, hd, q, none⟩ (joinLines c ls)
      = ⟨.sof, [], [], 0, m - ls.length, hd, q, none⟩ := by
  induction ls generalizing m with
  | nil =>
      intro hrow hfit hlen
      simp [joinLines, feedU8s]
  | cons L ls ih =>
      intro hrow hfit hlen
      have hjoin : joinLines c (L :: ls) = (L ++ [c.newline]) ++ joinLines c ls := by
        simp [joinLines]
      rw [hjoin, feedU8s_append]
      have hm : m = (m - 1) + 1 := by
        simp only [List.length_cons] at hlen
        omega
      rw [hm,
        feedLine_skip c L (m - 1) hd q hcm hqn hsn hn13
          (hrow L (by simp)).1 (hrow L (by simp)).2 (hfit L (by simp)),
        ih (m - 1) (fun L2 h2 => hrow L2 (by simp [h2])) (fun L2 h2 => hfit L2 (by simp [h2]))
          (by simp only [List.length_cons] at hlen; omega)]
      simp only [List.length_cons]
      have harith : m - 1 - ls.length = m - 1 + 1 - (ls.length + 1) := by omega
      rw [harith]

/-! ### C7: skipLines equivalence (corrected) -/

/-- C7 counterexample: the claim as stated — for every configuration and
every line sequence, skipLines = k equals dropping k lines with
skipLines = 0 — is false on the model: with maxRowBytes = 3 and
skipLines = 1, the skipped first line `abab` itself exceeds the row cap,
so the full parse fails with `RowTooLarge` and emits nothing, while the
parse of the remaining lines under skipLines = 0 succeeds with one
record. -/
theorem c7_skip_lines_counterexample :
    ¬ (parseBytes { cfgDefault with skipLines := 1, maxRowBytes := 3 }
          (joinLines cfgDefault [[97, 98, 97, 98], [104], [49]])
        = parseBytes { cfgDefault with maxRowBytes := 3 }
            (joinLines cfgDefault ([[97, 98, 97, 98], [104], [49]].drop 1))) := by
  decide

/-- C7 amended. Line skipping: parsing lines L0…L(n-1) with skipLines = k
yields exactly the parse of Lk…L(n-1) with skipLines = 0 — same records,
same headers, same error — for any k at most n, provided: comment
handling is off and the newline byte differs from the quote, separator
and CR bytes (otherwise line boundaries are not row boundaries); neither
input stream opens with a BOM byte; each skipped line is a single
complete scanner row (scanning it from a row start closes no row and
does not end inside a quoted field — quoted fields with embedded
separators, newlines or doubled quotes are fine); and each skipped line
fits in maxRowBytes, since — as the counterexample shows — a skipped
line can otherwise fail the parse that a dropped line cannot.  The lines
after the first k are arbitrary. -/
theorem c7_skip_lines_equiv (c : Cfg) (lines : List (List Nat)) (k : Nat)
    (hk : k ≤ lines.length) (hsk : c.skipLines = k) (hcm : c.comment = none)
    (hqn : c.quote ≠ c.newline) (hsn : c.separator ≠ c.newline) (hn13 : c.newline ≠ 13)
    (hbom1 : noBomHead (joinLines c lines) = true)
    (hbom2 : noBomHead (joinLines c (lines.drop k)) = true)
    (hrow : ∀ L ∈ lines.take k,
        (scanRun c rowStart L).headers = none ∧
        scanEndOk (scanRun c rowStart L).scan = true)
    (hfit : ∀ L ∈ lines.take k, L.length + 1 ≤ c.maxRowBytes) :
    parseBytes c (joinLines c lines)
      = parseBytes { c with skipLines := 0 }
          (joinLines { c with skipLines := 0 } (lines.drop k)) := by
  have htklen : (lines.take k).length = k := by
    rw [List.length_take]
    omega
  rw [parse_u8_view c _ hbom1]
  have hsplit : joinLines c lines
      = joinLines c (lines.take k) ++ joinLines c (lines.drop k) := by
    unfold joinLines
    conv_lhs => rw [← List.take_append_drop k lines]
    rw [List.map_append, List.flatten_append]
  rw [hsplit, feedU8s_append]
  have hinit : initCore c = ⟨.sof, [], [], 0, k, none, [], none⟩ := by
    unfold initCore
    rw [hsk]
  rw [hinit,
    skipPhase c (lines.take k) k none [] hcm hqn hsn hn13 hrow hfit (by rw [htklen]),
    htklen, Nat.sub_self]
  rw [joinLines_skipLines c 0,
    parse_u8_view _ _ hbom2]
  have hinit0 : initCore { c with skipLines := 0 } = ⟨.sof, [], [], 0, 0, none, [], none⟩ := rfl
  rw [hinit0, feedU8s_skipLines c 0, resultOfCore_skipLines c 0]

/-- C7 witness: skipping a quoted line `"x"` (a single complete row whose
scan ends just after its closing quote) is the same as dropping it. -/
theorem c7_skip_lines_equiv_witness :
    parseBytes { cfgDefault with skipLines := 1 }
        (joinLines { cfgDefault with skipLines := 1 } [[34, 120, 34], [104], [49]])
      = parseBytes { { cfgDefault with skipLines := 1 } with skipLines := 0 }
          (joinLines { { cfgDefault with skipLines := 1 } with skipLines := 0 }
            ([[34, 120, 34], [104], [49]].drop 1)) := by
  exact c7_skip_lines_equiv { cfgDefault with skipLines := 1 } [[34, 120, 34], [104], [49]] 1
    (by decide) rfl rfl (by decide) (by decide) (by decide) (by decide) (by decide)
    (by decide) (by decide)

end FastCsv
